import Mathlib

/-!
Verification of the meshrender core (GridElements.cpp) against its
natural-language specification.

The source is embedded shallowly: machine doubles become exact rationals
(ℚ), so every floating comparison in the source is rendered as the
corresponding exact comparison; stateful methods become explicit state
passing; fallible code returns `Option`/`Except`.  Loops are embedded as
fuel-indexed structural recursions with fuel bounds proved sufficient.

The repository files GridElements.h, Defines.h and kdtree.cpp are not
available; the handful of entities they declare (Node arithmetic, the
reference tolerance, the kd-tree queries, the Face index operator) are
modelled from the specification and are marked as such in their doc
comments.  Everything else is translated directly from GridElements.cpp;
line numbers refer to that file.
-/

namespace MeshRender

/-- Modelled from the spec: a `Node` is a 3-D Cartesian point (GridElements.h
is not available).  Coordinates are exact rationals standing for the
source's doubles. -/
structure Node where
  x : ℚ
  y : ℚ
  z : ℚ
  deriving DecidableEq, Repr

instance : Inhabited Node := ⟨⟨0, 0, 0⟩⟩

/-- Modelled from the spec: the zero node, used as the default for the
(undefined-behavior) out-of-range accesses of the source. -/
def Node.zero : Node := ⟨0, 0, 0⟩

/-- Modelled from the spec: componentwise difference of nodes (operator-
in GridElements.h). -/
def Node.sub (a b : Node) : Node := ⟨a.x - b.x, a.y - b.y, a.z - b.z⟩

/-- Modelled from the spec: dot product of nodes (DotProduct in
GridElements.h). -/
def DotProduct (a b : Node) : ℚ := a.x * b.x + a.y * b.y + a.z * b.z

/-- Modelled from the spec: cross product of nodes (CrossProduct in
GridElements.h). -/
def CrossProduct (a b : Node) : Node :=
  ⟨a.y * b.z - a.z * b.y, a.z * b.x - a.x * b.z, a.x * b.y - a.y * b.x⟩

/-- Squared magnitude of a node.  The source's `Node::Magnitude` is the
square root of this; every use below compares magnitudes against
nonnegative bounds, which is rendered exactly by comparing squares. -/
def Node.magSq (n : Node) : ℚ := n.x * n.x + n.y * n.y + n.z * n.z

/-- Squared Euclidean distance between two nodes. -/
def distSq (a b : Node) : ℚ := (a.sub b).magSq

/-- Modelled from the spec: the reference tolerance (Defines.h is not
available; the spec gives the reference value 1e-8). -/
def ReferenceTolerance : ℚ := 1 / 100000000

/-- Edge arc-type tag (Edge::Type). -/
inductive EdgeKind where
  | GreatCircleArc
  | ConstantLatitude
  deriving DecidableEq, Repr

/-- An Edge is a directed node-index pair with an arc-type tag; `n0` is
edge[0] (origin) and `n1` is edge[1] (destination). -/
structure Edge where
  n0 : ℕ
  n1 : ℕ
  type : EdgeKind
  deriving DecidableEq, Repr

instance : Inhabited Edge := ⟨⟨0, 0, EdgeKind.GreatCircleArc⟩⟩

/-- A Face is an ordered sequence of edges. -/
structure Face where
  edges : List Edge
  deriving DecidableEq, Repr

/-- Modelled from the spec: Face::operator[] yields the origin node index
of the edge at the given position. -/
def Face.ix (f : Face) (i : ℕ) : ℕ := (f.edges.getD i default).n0

/-- The Mesh state used by the claims: the node list, the face list, and
the derived edge map and reverse node array (rebuilt on demand). -/
structure Mesh where
  nodes : List Node
  faces : List Face
  edgemap : List ((ℕ × ℕ) × List ℕ)
  revnodearray : List (Finset ℕ)
  deriving DecidableEq

/-! ## Mesh::CalculateFaceAreas accumulation (lines 266-313, claim C5) -/

/-- One collapse pass of the accumulation loop of Mesh::CalculateFaceAreas
(lines 295-310): the array is rewritten in place so that entry `i` holds
the sum of the up-to-`Jump = 10` consecutive entries starting at `10*i`,
then resized to `(size-1)/10 + 1`. -/
def sumBlocks : List ℚ → List ℚ
  | [] => []
  | x :: xs => ((x :: xs).take 10).sum :: sumBlocks ((x :: xs).drop 10)
termination_by l => l.length
decreasing_by simp [List.length_drop]; omega

/-- The outer collapse loop of Mesh::CalculateFaceAreas (lines 295-310),
fuel-indexed: repeat collapse passes until a single value remains, then
return it.  A fuel of the initial length is sufficient (each pass
strictly shrinks a list of length at least 2). -/
def collapseLoop : ℕ → List ℚ → ℚ
  | 0, l => l.headD 0
  | fuel + 1, l => if l.length = 1 then l.headD 0 else collapseLoop fuel (sumBlocks l)

/-- The total returned by Mesh::CalculateFaceAreas (lines 266-313),
parametrized by the per-face area array `vecFaceArea` (the per-face areas
themselves are produced by Gauss-Legendre quadrature, whose nodes and
square roots are not rational; the claim concerns only the accumulation).
Returns 0 for an empty face list (line 272-274). -/
def CalculateFaceAreasTotal (vecFaceArea : List ℚ) : ℚ :=
  if vecFaceArea.length = 0 then 0
  else collapseLoop vecFaceArea.length vecFaceArea

/-! ## Face::Contains (lines 133-203, claim C1) -/

/-- The loop body of Face::Contains (lines 139-197): given the query
node `n0` and the edge endpoints `n1 = nodevec[face[i1]]`,
`n2 = nodevec[face[i2]]`, update the running signed parity. -/
def containsEdgeUpdate (n0 n1 n2 : Node) (nParity : ℤ) : ℤ :=
  if n1.z > n0.z ∧ n2.z > n0.z then nParity
  else if n1.z < n0.z ∧ n2.z < n0.z then nParity
  else if n1.z = n2.z then nParity
  else
    let nx : Node :=
      if n1.z < n2.z then
        let dA := (n0.z - n1.z) / (n2.z - n1.z)
        ⟨(1 - dA) * n1.x + dA * n2.x, (1 - dA) * n1.y + dA * n2.y, n0.z⟩
      else
        let dA := (n0.z - n2.z) / (n1.z - n2.z)
        ⟨(1 - dA) * n2.x + dA * n1.x, (1 - dA) * n2.y + dA * n1.y, n0.z⟩
    let dc := n0.x * nx.y - n0.y * nx.x
    let dd := n0.x * nx.x + n0.y * nx.y + n0.z * nx.z
    let da := dc / dd
    if da < 0 then nParity
    else if n1.z < n2.z then nParity + 1
    else nParity - 1

/-- Face::Contains (lines 133-203): accumulate the signed parity over all
edges and return whether it is strictly positive. -/
def Face.Contains (face : Face) (n0 : Node) (nodevec : List Node) : Bool :=
  let m := face.edges.length
  decide (0 < (List.range m).foldl (fun nParity i1 =>
    containsEdgeUpdate n0
      (nodevec.getD (face.ix i1) Node.zero)
      (nodevec.getD (face.ix ((i1 + 1) % m)) Node.zero)
      nParity) 0)

/-- The per-edge contribution described by claim C1: nothing when both
endpoints are strictly on one side of the plane `z = n0.z` or share its
height exactly; otherwise interpolate the intersection `nx` (branching on
the smaller-z endpoint), contribute nothing when the surrogate
`(n0.x*nx.y - n0.y*nx.x) / (n0.x*nx.x + n0.y*nx.y + n0.z*nx.z)` is
negative, and otherwise contribute +1 when `n1.z < n2.z` and -1 when
`n1.z > n2.z`. -/
def edgeParityContrib (n0 n1 n2 : Node) : ℤ :=
  if (n1.z > n0.z ∧ n2.z > n0.z) ∨ (n1.z < n0.z ∧ n2.z < n0.z) ∨ n1.z = n2.z then 0
  else
    let nx : Node :=
      if n1.z < n2.z then
        let dA := (n0.z - n1.z) / (n2.z - n1.z)
        ⟨(1 - dA) * n1.x + dA * n2.x, (1 - dA) * n1.y + dA * n2.y, n0.z⟩
      else
        let dA := (n0.z - n2.z) / (n1.z - n2.z)
        ⟨(1 - dA) * n2.x + dA * n1.x, (1 - dA) * n2.y + dA * n1.y, n0.z⟩
    if (n0.x * nx.y - n0.y * nx.x) / (n0.x * nx.x + n0.y * nx.y + n0.z * nx.z) < 0 then 0
    else if n1.z < n2.z then 1
    else -1

/-! ## Mesh::Validate (lines 1672-1822, claim C2) -/

/-- Whether a node fails the unit-magnitude gate of Mesh::Validate
(lines 1675-1684).  The source tests `fabs(sqrt(magSq) - 1) > tol`; for a
nonnegative square this is exactly `magSq > (1+tol)^2 or magSq < (1-tol)^2`. -/
def nodeMagBad (n : Node) : Bool :=
  decide ((1 + ReferenceTolerance) ^ 2 < n.magSq) ||
  decide (n.magSq < (1 - ReferenceTolerance) ^ 2)

/-- The node-magnitude loop of Mesh::Validate (lines 1675-1684): the first
offending node raises the error. -/
def checkNodeMagnitudes : List Node → Except String Unit
  | [] => .ok ()
  | n :: rest =>
    if nodeMagBad n then
      .error "Mesh validation failed: Node of non-unit magnitude detected"
    else checkNodeMagnitudes rest

/-- The degenerate-edge skip at the top of the Validate edge walk
(lines 1695-1708): advance `j` past edges whose endpoints coincide,
stopping at the list length. -/
def skipDeg (edges : List Edge) : ℕ → ℕ → ℕ
  | 0, j => j
  | fuel + 1, j =>
    if h : j < edges.length then
      if (edges.get ⟨j, h⟩).n0 = (edges.get ⟨j, h⟩).n1 then skipDeg edges fuel (j + 1)
      else j
    else j

/-- The jNext search loop of Mesh::Validate (lines 1711-1726): scan
cyclically from `start` for the first non-degenerate edge; `none`
corresponds to the "No edge information on Face" exception raised when
the scan returns to `start`. -/
def findNextNonDeg (edges : List Edge) (start : ℕ) : ℕ → ℕ → Option ℕ
  | 0, _ => none
  | fuel + 1, cur =>
    if (edges.getD cur default).n0 = (edges.getD cur default).n1 then
      let nxt := if cur + 1 = edges.length then 0 else cur + 1
      if nxt = start then none
      else findNextNonDeg edges start fuel nxt
    else some cur

/-- The per-face edge walk of Mesh::Validate (lines 1687-1821),
fuel-indexed on the number of outer-loop iterations: skip degenerate
edges, look for the next non-degenerate edge (whose absence would raise
"No edge information on Face"), then check edge cyclicity against the
edge at `(j+1) mod nEdges` and the orientation sign, and continue from
`j+1`.  Note the source compares against the edge at `(j+1) mod nEdges`
directly (lines 1730-1738); the computed jNext is not used there. -/
def validateFaceFrom (nodes : List Node) (edges : List Edge) : ℕ → ℕ → Except String Unit
  | 0, _ => .ok ()
  | fuel + 1, j =>
    if j < edges.length then
      let j1 := skipDeg edges edges.length j
      if j1 = edges.length then .ok ()
      else
        match findNextNonDeg edges ((j1 + 1) % edges.length) (edges.length + 1)
            ((j1 + 1) % edges.length) with
        | none => .error "Mesh validation failed: No edge information on Face"
        | some _ =>
          let edge0 := edges.getD j1 default
          let edge1 := edges.getD ((j1 + 1) % edges.length) default
          if edge0.n1 ≠ edge1.n0 then
            .error "Mesh validation failed: Edge cyclicity error"
          else
            let node0 := nodes.getD edge0.n0 Node.zero
            let node1 := nodes.getD edge0.n1 Node.zero
            let node2 := nodes.getD edge1.n1 Node.zero
            if 0 < DotProduct node1 (CrossProduct (node0.sub node1) (node2.sub node1)) then
              .error "Mesh validation failed: Clockwise or concave face detected"
            else validateFaceFrom nodes edges fuel (j1 + 1)
    else .ok ()

/-- The edge-orientation walk of Mesh::Validate for one face.  A fuel of
`edges.length` covers every iteration since `j` strictly increases. -/
def Face.validateEdges (f : Face) (nodes : List Node) : Except String Unit :=
  validateFaceFrom nodes f.edges f.edges.length 0

/-- The face loop of Mesh::Validate (lines 1687-1821): the first face
that fails raises the error. -/
def checkFaceOrientation (nodes : List Node) : List Face → Except String Unit
  | [] => .ok ()
  | f :: rest =>
    match f.validateEdges nodes with
    | .error msg => .error msg
    | .ok _ => checkFaceOrientation nodes rest

/-- Mesh::Validate (lines 1672-1822): the unit-magnitude gate followed by
the winding gate. -/
def Mesh.Validate (m : Mesh) : Except String Unit :=
  match checkNodeMagnitudes m.nodes with
  | .error msg => .error msg
  | .ok _ => checkFaceOrientation m.nodes m.faces

/-- Whether the edge at position `j` is degenerate (coincident endpoints). -/
def edgeDegAt (edges : List Edge) (j : ℕ) : Prop :=
  (edges.getD j default).n0 = (edges.getD j default).n1

instance (edges : List Edge) (j : ℕ) : Decidable (edgeDegAt edges j) := by
  unfold edgeDegAt; infer_instance

/-- The failure condition Mesh::Validate actually tests at a visited
non-degenerate edge `j` (lines 1729-1819): the partner edge is the one at
`(j+1) mod nEdges` (degenerate or not); fail when destination(edge j)
differs from its origin, or when the orientation dot product is strictly
positive. -/
def validatePairBad (nodes : List Node) (edges : List Edge) (j : ℕ) : Prop :=
  (edges.getD j default).n1 ≠ (edges.getD ((j + 1) % edges.length) default).n0 ∨
    0 < DotProduct (nodes.getD (edges.getD j default).n1 Node.zero)
      (CrossProduct
        ((nodes.getD (edges.getD j default).n0 Node.zero).sub
          (nodes.getD (edges.getD j default).n1 Node.zero))
        ((nodes.getD (edges.getD ((j + 1) % edges.length) default).n1 Node.zero).sub
          (nodes.getD (edges.getD j default).n1 Node.zero)))

/-- The throwing condition as worded by claim C2 (used to refute the claim
as stated): some node fails the magnitude gate, or some face has a
non-degenerate edge `j` whose partner is the NEXT NON-DEGENERATE edge `k`
(cyclically after `j`, as located by the search loop), with the cyclicity
test comparing destination(edge j) against origin(edge k) and the
orientation test taken on that pair. -/
def validateSpecThrows (m : Mesh) : Prop :=
  (∃ n ∈ m.nodes, nodeMagBad n = true) ∨
  (∃ f ∈ m.faces, ∃ j, j < f.edges.length ∧ ¬edgeDegAt f.edges j ∧
    ∃ k, findNextNonDeg f.edges ((j + 1) % f.edges.length) (f.edges.length + 1)
        ((j + 1) % f.edges.length) = some k ∧
      ((f.edges.getD j default).n1 ≠ (f.edges.getD k default).n0 ∨
        0 < DotProduct (m.nodes.getD (f.edges.getD j default).n1 Node.zero)
          (CrossProduct
            ((m.nodes.getD (f.edges.getD j default).n0 Node.zero).sub
              (m.nodes.getD (f.edges.getD j default).n1 Node.zero))
            ((m.nodes.getD (f.edges.getD k default).n1 Node.zero).sub
              (m.nodes.getD (f.edges.getD j default).n1 Node.zero)))))

/-! ## The kd-tree and NodeTree (lines 37-99, claim C4) -/

/-- Modelled from the spec: the kd-tree (kdtree.cpp is not available) is
a 3-D spatial index storing (coordinates, integer payload) pairs;
`kd_insert3` appends an entry. -/
abbrev KdTreeData := List (Node × ℕ)

/-- Modelled from the spec: kd_nearest_range3 returns every stored point
within the given radius of the query (compared on squared distances). -/
def kdNearestRange (tree : KdTreeData) (q : Node) (radius : ℚ) : KdTreeData :=
  tree.filter (fun p => decide (distSq p.1 q ≤ radius ^ 2))

/-- The initial value of iMinimalIndex in NodeTree::find (line 69):
std::numeric_limits of int. -/
def intMax : ℕ := 2 ^ 31 - 1

/-- The NodeTree wrapper (lines 37-47): a kd-tree plus the fixed minimum
spacing and the count of inserted points. -/
structure NodeTree where
  m_minimum_spacing : ℚ
  tree : KdTreeData
  m_size : ℕ

/-- NodeTree::find (lines 57-83): query all points within the minimum
spacing of `node` and return the smallest payload among them, or `none`
(the InvalidNode sentinel) when there are none. -/
def NodeTree.find (t : NodeTree) (node : Node) : Option ℕ :=
  let res := kdNearestRange t.tree node t.m_minimum_spacing
  if res.isEmpty then none
  else some (res.foldl (fun acc p => min acc p.2) intMax)

/-- NodeTree::find_or_insert (lines 87-99): return the existing match if
found, else insert `node` tagged with `index` and return `index`. -/
def NodeTree.find_or_insert (t : NodeTree) (node : Node) (index : ℕ) : ℕ × NodeTree :=
  match t.find node with
  | some j => (j, t)
  | none => (index, { t with tree := t.tree ++ [(node, index)], m_size := t.m_size + 1 })

/-! ## Mesh::RemoveCoincidentNodes (lines 383-448, claims C3 and C9) -/

/-- Modelled from the spec: kd_nearest3 (kdtree.cpp is not available)
returns a stored entry whose point is at minimal Euclidean distance from
the query (the first such entry in insertion order), or `none` for an
empty tree. -/
def kdStep (q : Node) (acc : Option (Node × ℕ)) (p : Node × ℕ) : Option (Node × ℕ) :=
  match acc with
  | none => some p
  | some best => if distSq p.1 q < distSq best.1 q then some p else acc

/-- Modelled from the spec: kd_nearest3 scans the stored entries keeping
the closest one seen. -/
def kdNearest (tree : KdTreeData) (q : Node) : Option (Node × ℕ) :=
  tree.foldl (kdStep q) none

/-- The streaming scan of Mesh::RemoveCoincidentNodes (lines 401-421):
for each node after the first, find the nearest unique so far; if it is
within the tolerance record its new index, otherwise insert the node as
a new unique.  Returns (vecNewNodeIndex, vecUniques).  The kdNearest
`none` branch is unreachable because the tree is seeded nonempty. -/
def dedupScan : KdTreeData → List ℕ → List ℕ → List Node → ℕ → List ℕ × List ℕ
  | _, vecNewNodeIndex, vecUniques, [], _ => (vecNewNodeIndex, vecUniques)
  | kdt, vecNewNodeIndex, vecUniques, node :: rest, k =>
    match kdNearest kdt node with
    | none => (vecNewNodeIndex, vecUniques)
    | some (nodeNearest, ixNodeNearestNewIx) =>
      if distSq node nodeNearest < ReferenceTolerance ^ 2 then
        dedupScan kdt (vecNewNodeIndex ++ [ixNodeNearestNewIx]) vecUniques rest (k + 1)
      else
        dedupScan (kdt ++ [(node, vecUniques.length)])
          (vecNewNodeIndex ++ [vecUniques.length]) (vecUniques ++ [k]) rest (k + 1)

/-- Mesh::RemoveCoincidentNodes (lines 383-448).  The source seeds the
tree by reading nodes[0] before any size check (line 397); for an empty
node list that access is out of bounds, modelled as `none`.  Otherwise:
run the scan; if no duplicates were found return the mesh unchanged
(lines 426-428), else rebuild the node list from vecUniques and remap
every face edge index through vecNewNodeIndex. -/
def Mesh.RemoveCoincidentNodes (m : Mesh) : Option Mesh :=
  match m.nodes with
  | [] => none
  | n0 :: rest =>
    let s := dedupScan [(n0, 0)] [0] [0] rest 1
    if s.2.length = m.nodes.length then some m
    else
      some { m with
        nodes := s.2.map (fun i => m.nodes.getD i Node.zero),
        faces := m.faces.map (fun f =>
          ⟨f.edges.map (fun e => ⟨s.1.getD e.n0 0, s.1.getD e.n1 0, e.type⟩)⟩) }

/-! ## Topology builders (lines 218-262, claim C8) -/

/-- Modelled from the spec: the edge map is keyed by the directed pair
(origin, destination); FacePair::AddFace (GridElements.h is not
available) appends the incident face id.  std::map insertion is modelled
as an association list: a present key has its face list extended, an
absent key is added. -/
def edgemapInsertAdd (em : List ((ℕ × ℕ) × List ℕ)) (key : ℕ × ℕ) (i : ℕ) :
    List ((ℕ × ℕ) × List ℕ) :=
  match em with
  | [] => [(key, [i])]
  | (k, fp) :: rest =>
    if k = key then (k, fp ++ [i]) :: rest
    else (k, fp) :: edgemapInsertAdd rest key i

/-- The body of Mesh::ConstructEdgeMap (lines 218-243): clear the map and,
for each face and each edge whose origin differs from the next edge's
origin, record the face as incident to the directed edge. -/
def buildEdgeMap (faces : List Face) : List ((ℕ × ℕ) × List ℕ) :=
  (List.range faces.length).foldl (fun em i =>
    let face := faces.getD i ⟨[]⟩
    (List.range face.edges.length).foldl (fun em k =>
      if face.ix k = face.ix ((k + 1) % face.edges.length) then em
      else edgemapInsertAdd em (face.ix k, face.ix ((k + 1) % face.edges.length)) i) em) []

/-- Mesh::ConstructEdgeMap as a state update. -/
def Mesh.ConstructEdgeMap (m : Mesh) : Mesh := { m with edgemap := buildEdgeMap m.faces }

/-- The body of Mesh::ConstructReverseNodeArray (lines 247-262): resize
to the node count, clear every entry, then insert each face id into the
adjacency set of each of its edges' origin nodes. -/
def buildRevNodeArray (nNodes : ℕ) (faces : List Face) : List (Finset ℕ) :=
  (List.range faces.length).foldl (fun arr i =>
    ((faces.getD i ⟨[]⟩).edges).foldl (fun arr e =>
      arr.set e.n0 (insert i (arr.getD e.n0 ∅))) arr)
    (List.replicate nNodes ∅)

/-- Mesh::ConstructReverseNodeArray as a state update. -/
def Mesh.ConstructReverseNodeArray (m : Mesh) : Mesh :=
  { m with revnodearray := buildRevNodeArray m.nodes.length m.faces }

/-! ## Mesh::Read format detection and dedup (lines 1121-1658, claim C6) -/

/-- The three grid-file encodings Mesh::Read distinguishes. -/
inductive MeshFormat where
  | ICON
  | SCRIP
  | Exodus
  deriving DecidableEq, Repr

/-- The part of an input file that Mesh::Read's format detection examines:
the global `title` attribute (if any) and the dimension names. -/
structure GridFileModel where
  title : Option String
  dims : List String

/-- The format detection of Mesh::Read (lines 1145-1284): ICON when the
`title` attribute equals the sentinel; otherwise count the dimensions
named grid_size, grid_corners or grid_rank, and take exactly 3 as SCRIP;
otherwise assume Exodus. -/
def detectFormat (f : GridFileModel) : MeshFormat :=
  if f.title = some "ICON grid description" then MeshFormat.ICON
  else if (f.dims.countP (fun d =>
      decide (d = "grid_size") || decide (d = "grid_corners") || decide (d = "grid_rank"))) = 3 then
    MeshFormat.SCRIP
  else MeshFormat.Exodus

/-- Whether Mesh::Read invokes RemoveCoincidentNodes, per branch: the ICON
branch returns before any dedup (line 1263); the SCRIP branch runs it only
when fRemoveCoincidentNodes is set (lines 1403-1408); the Exodus branch
runs it unconditionally (line 1656). -/
def readRunsDedup (f : GridFileModel) (fRemoveCoincidentNodes : Bool) : Bool :=
  match detectFormat f with
  | MeshFormat.ICON => false
  | MeshFormat.SCRIP => fRemoveCoincidentNodes
  | MeshFormat.Exodus => true

/-! ## Exodus block assembly (lines 1484-1615, claims C7 and C10) -/

/-- The per-element data of an Exodus block that the assembly loop reads:
the 1-indexed global face id and the 1-indexed connectivity node ids. -/
structure ExodusElem where
  globalId : ℤ
  connect : List ℤ
  deriving DecidableEq, Repr

/-- The Exodus block-assembly loop (lines 1595-1615) for the elements of
one block: an element whose global id minus one reaches nTotalElementCount
raises the out-of-range error; otherwise the face slot at globalId - 1
receives the 0-indexed connectivity (the source checks neither a lower
bound on the global id - an id below 1 is an unchecked out-of-bounds
write, modelled as an update at a negative key - nor any range on the
connectivity ids).  Faces are modelled as an assignment from slot to
connectivity. -/
def assembleElems (nTotalElementCount : ℤ) (faces : ℤ → List ℤ) :
    List ExodusElem → Except String (ℤ → List ℤ)
  | [] => .ok faces
  | e :: rest =>
    if nTotalElementCount ≤ e.globalId - 1 then
      .error "global_id out of range"
    else
      assembleElems nTotalElementCount
        (Function.update faces (e.globalId - 1) (e.connect.map (fun c => c - 1))) rest

/-- The Exodus block loop of Mesh::Read (lines 1460-1616) restricted to
the assembly of faces: process each block in order; `nNodeCount` is the
num_nodes dimension, which the assembly never consults. -/
def exodusAssemble (nTotalElementCount nNodeCount : ℤ) :
    (ℤ → List ℤ) → List (List ExodusElem) → Except String (ℤ → List ℤ)
  | faces, [] => .ok faces
  | faces, b :: bs =>
    match assembleElems nTotalElementCount faces b with
    | .error msg => .error msg
    | .ok faces2 => exodusAssemble nTotalElementCount nNodeCount faces2 bs

/-- The per-block parent-variable logic of Mesh::Read (lines 1547-1593)
for one side (source or target): `populated` records whether the parent
index array is nonempty, each list entry records whether the block's
parent variable is present in the file.  A block lacking the variable
while the array is populated raises the missing-variable error; a block
that has it (re)populates the array. -/
def loadParentVars : Bool → List Bool → Except String Bool
  | populated, [] => .ok populated
  | populated, has :: rest =>
    if !has && populated then .error "Exodus Grid file is missing parent variable"
    else loadParentVars (populated || has) rest

/-- A concrete mesh used to refute claim C2 as stated: three exactly-unit
nodes; one face whose edges are (0→1), the degenerate (2→2), then (1→0). -/
def c2mesh : Mesh :=
  ⟨[⟨1, 0, 0⟩, ⟨0, 1, 0⟩, ⟨0, 0, 1⟩],
   [⟨[⟨0, 1, EdgeKind.GreatCircleArc⟩, ⟨2, 2, EdgeKind.GreatCircleArc⟩,
      ⟨1, 0, EdgeKind.GreatCircleArc⟩]⟩],
   [], []⟩

/-- A concrete mesh exercising the C3 theorem: two coincident nodes and
one distinct node, with a face referencing all three. -/
def c3mesh : Mesh :=
  ⟨[⟨1, 0, 0⟩, ⟨1, 0, 0⟩, ⟨0, 1, 0⟩],
   [⟨[⟨0, 1, EdgeKind.GreatCircleArc⟩, ⟨1, 2, EdgeKind.GreatCircleArc⟩,
      ⟨2, 0, EdgeKind.GreatCircleArc⟩]⟩],
   [], []⟩

/-- Concrete spatial-index contents used by the witness of the C4 theorem. -/
def c4entries : KdTreeData := [((⟨1, 0, 0⟩ : Node), 7), ((⟨0, 1, 0⟩ : Node), 3)]

/-! # Theorems

Helper lemmas first, then one theorem per claim (with its witness or
counterexample where required). -/

theorem sumBlocks_sum (l : List ℚ) : (sumBlocks l).sum = l.sum := by
  induction l using sumBlocks.induct with
  | case1 => simp [sumBlocks]
  | case2 x xs ih =>
      rw [sumBlocks, List.sum_cons, ih, ← List.sum_append, List.take_append_drop]

theorem sumBlocks_length_le (l : List ℚ) : (sumBlocks l).length ≤ l.length := by
  induction l using sumBlocks.induct with
  | case1 => simp [sumBlocks]
  | case2 x xs ih =>
      rw [sumBlocks]
      simp only [List.length_cons, List.length_drop] at *
      omega

theorem sumBlocks_length_lt (l : List ℚ) (h : 2 ≤ l.length) :
    (sumBlocks l).length < l.length := by
  match l with
  | x :: xs =>
      rw [sumBlocks]
      have hle := sumBlocks_length_le ((x :: xs).drop 10)
      simp only [List.length_cons, List.length_drop] at *
      omega

theorem sumBlocks_length_pos (l : List ℚ) (h : 1 ≤ l.length) :
    1 ≤ (sumBlocks l).length := by
  match l with
  | x :: xs => rw [sumBlocks]; simp

theorem collapseLoop_eq_sum :
    ∀ (fuel : ℕ) (l : List ℚ), 1 ≤ l.length → l.length ≤ fuel →
      collapseLoop fuel l = l.sum := by
  intro fuel
  induction fuel with
  | zero => intro l h1 h2; omega
  | succ n ih =>
      intro l h1 h2
      rw [collapseLoop]
      by_cases hone : l.length = 1
      · obtain ⟨a, rfl⟩ := List.length_eq_one.mp hone
        simp
      · rw [if_neg hone]
        have hlt := sumBlocks_length_lt l (by omega)
        have hpos := sumBlocks_length_pos l (by omega)
        rw [ih (sumBlocks l) hpos (by omega), sumBlocks_sum]

/-- C5: the blocked collapse of Mesh::CalculateFaceAreas — repeatedly
summing the per-face area array in blocks of 10 until one value remains —
returns, in exact arithmetic, the naive left-to-right linear sum of the
per-face areas, and returns 0 for an empty face list. -/
theorem calculateFaceAreas_eq_linear_sum (vecFaceArea : List ℚ) :
    CalculateFaceAreasTotal vecFaceArea = vecFaceArea.foldl (· + ·) 0 := by
  unfold CalculateFaceAreasTotal
  by_cases h0 : vecFaceArea.length = 0
  · rw [if_pos h0]
    rw [List.length_eq_zero.mp h0]
    rfl
  · rw [if_neg h0, collapseLoop_eq_sum vecFaceArea.length vecFaceArea (by omega) le_rfl]
    rw [List.sum_eq_foldl]

/-- C8: calling ConstructEdgeMap twice in succession without intervening
mutation produces the same state as calling it once, and likewise for
ConstructReverseNodeArray: both are pure derivations of the current face
list (and node count), recomputed from scratch on every call. -/
theorem constructEdgeMap_revNodeArray_idempotent (m : Mesh) :
    m.ConstructEdgeMap.ConstructEdgeMap = m.ConstructEdgeMap ∧
    m.ConstructReverseNodeArray.ConstructReverseNodeArray = m.ConstructReverseNodeArray := by
  exact ⟨rfl, rfl⟩

/-- C9: Mesh::RemoveCoincidentNodes reads nodes[0] before any size check;
its error branch (the out-of-bounds seed access) is reached exactly when
the node list is empty. -/
theorem removeCoincidentNodes_none_iff_empty (m : Mesh) :
    m.RemoveCoincidentNodes = none ↔ m.nodes = [] := by
  cases hm : m.nodes with
  | nil => simp [Mesh.RemoveCoincidentNodes, hm]
  | cons n0 rest =>
      simp only [Mesh.RemoveCoincidentNodes, hm]
      constructor
      · intro h
        split at h <;> simp_all
      · intro h
        simp at h

/-- C10: the per-block parent-variable loading is fallible exactly as the
claim states: a block lacking the parent variable raises the fatal
missing-variable error precisely when the parent array was already
populated — by the pre-existing mesh state or by any earlier block that
had the variable. -/
theorem loadParentVars_error_iff (populated : Bool) (l : List Bool) :
    (∃ msg, loadParentVars populated l = Except.error msg) ↔
      ∃ l₁ l₂, l = l₁ ++ false :: l₂ ∧ (populated = true ∨ true ∈ l₁) := by
  induction l generalizing populated with
  | nil =>
      constructor
      · rintro ⟨msg, h⟩
        simp [loadParentVars] at h
      · rintro ⟨l₁, l₂, h, -⟩
        exact absurd h (by simp)
  | cons has rest ih =>
      cases has with
      | true =>
          rw [show loadParentVars populated (true :: rest) = loadParentVars true rest by
            cases populated <;> rfl]
          rw [ih]
          constructor
          · rintro ⟨l₁, l₂, rfl, -⟩
            exact ⟨true :: l₁, l₂, rfl, Or.inr (by simp)⟩
          · rintro ⟨l₁, l₂, heq, -⟩
            cases l₁ with
            | nil => simp at heq
            | cons b l₁ =>
                simp only [List.cons_append, List.cons.injEq] at heq
                exact ⟨l₁, l₂, heq.2, Or.inl rfl⟩
      | false =>
          cases populated with
          | true =>
              constructor
              · intro _
                exact ⟨[], rest, rfl, Or.inl rfl⟩
              · intro _
                exact ⟨"Exodus Grid file is missing parent variable", rfl⟩
          | false =>
              rw [show loadParentVars false (false :: rest) = loadParentVars false rest from rfl]
              rw [ih]
              constructor
              · rintro ⟨l₁, l₂, rfl, hmem⟩
                rcases hmem with h | h
                · cases h
                · exact ⟨false :: l₁, l₂, rfl, Or.inr (by simp [h])⟩
              · rintro ⟨l₁, l₂, heq, hmem⟩
                rcases hmem with h | h
                · cases h
                · cases l₁ with
                  | nil => simp at h
                  | cons b l₁ =>
                      simp only [List.cons_append, List.cons.injEq] at heq
                      obtain ⟨hb, hrest⟩ := heq
                      subst hb
                      simp only [List.mem_cons] at h
                      rcases h with h | h
                      · cases h
                      · exact ⟨l₁, l₂, hrest, Or.inr h⟩


/-- C6 counterexample: a SCRIP-format file (no ICON title, all three SCRIP
dimensions present) read with removeDuplicates turned off is a non-ICON
file on which coincident-node removal does not run, refuting the claim
that it runs for every non-ICON file. -/
theorem readDedup_counterexample :
    detectFormat ⟨none, ["grid_size", "grid_corners", "grid_rank"]⟩ ≠ MeshFormat.ICON ∧
    readRunsDedup ⟨none, ["grid_size", "grid_corners", "grid_rank"]⟩ false = false := by
  constructor
  · intro h
    simp [detectFormat] at h
  · rfl

/-- C6 (amended): the detection precedence is ICON title sentinel first,
then the SCRIP dimension triad, else Exodus; coincident-node removal runs
unconditionally after an Exodus read, runs after a SCRIP read exactly when
the removeDuplicates flag is set, and never runs after an ICON read. -/
theorem readFormat_dedup_characterization (f : GridFileModel) (flag : Bool) :
    (detectFormat f = MeshFormat.ICON ↔ f.title = some "ICON grid description") ∧
    (detectFormat f = MeshFormat.SCRIP ↔ f.title ≠ some "ICON grid description" ∧
      f.dims.countP (fun d => decide (d = "grid_size") || decide (d = "grid_corners") ||
        decide (d = "grid_rank")) = 3) ∧
    (readRunsDedup f flag = true ↔ detectFormat f ≠ MeshFormat.ICON ∧
      (detectFormat f = MeshFormat.Exodus ∨ flag = true)) := by
  by_cases h1 : f.title = some "ICON grid description"
  · have hdet : detectFormat f = MeshFormat.ICON := by rw [detectFormat, if_pos h1]
    rw [hdet]
    refine ⟨iff_of_true rfl h1, ?_, ?_⟩
    · simp [h1]
    · simp [readRunsDedup, hdet]
  · by_cases h2 : f.dims.countP (fun d => decide (d = "grid_size") ||
        decide (d = "grid_corners") || decide (d = "grid_rank")) = 3
    · have hdet : detectFormat f = MeshFormat.SCRIP := by
        rw [detectFormat, if_neg h1, if_pos h2]
      rw [hdet]
      refine ⟨?_, iff_of_true rfl ⟨h1, h2⟩, ?_⟩
      · exact ⟨fun h => absurd h (by decide), fun h => absurd h h1⟩
      · simp [readRunsDedup, hdet]
    · have hdet : detectFormat f = MeshFormat.Exodus := by
        rw [detectFormat, if_neg h1, if_neg h2]
      rw [hdet]
      refine ⟨?_, ?_, ?_⟩
      · exact ⟨fun h => absurd h (by decide), fun h => absurd h h1⟩
      · exact ⟨fun h => absurd h (by decide), fun h => absurd h.2 h2⟩
      · simp [readRunsDedup, hdet]

theorem assembleElems_error_iff (nTotal : ℤ) (faces : ℤ → List ℤ)
    (elems : List ExodusElem) :
    (∃ msg, assembleElems nTotal faces elems = Except.error msg) ↔
      ∃ e ∈ elems, nTotal ≤ e.globalId - 1 := by
  induction elems generalizing faces with
  | nil =>
      constructor
      · rintro ⟨msg, h⟩
        simp [assembleElems] at h
      · rintro ⟨e, he, -⟩
        simp at he
  | cons e rest ih =>
      rw [assembleElems]
      by_cases hgid : nTotal ≤ e.globalId - 1
      · rw [if_pos hgid]
        simp only [List.mem_cons]
        exact ⟨fun _ => ⟨e, Or.inl rfl, hgid⟩, fun _ => ⟨"global_id out of range", rfl⟩⟩
      · rw [if_neg hgid]
        rw [ih]
        simp only [List.mem_cons]
        constructor
        · rintro ⟨x, hx, hle⟩
          exact ⟨x, Or.inr hx, hle⟩
        · rintro ⟨x, hx | hx, hle⟩
          · subst hx
            exact absurd hle hgid
          · exact ⟨x, hx, hle⟩

/-- C7 counterexample: an Exodus file with num_elem = 1, num_nodes = 2 and
a single element whose connectivity id 7 is outside [1, num_nodes] is
assembled without any error: out-of-range connectivity ids do not cause a
fatal read error, refuting the claim. -/
theorem exodus_connectivity_unchecked :
    exodusAssemble 1 2 (fun _ => []) [[⟨1, [7]⟩]] =
      Except.ok (Function.update (fun _ => ([] : List ℤ)) 0 [6]) ∧
    ¬((1 : ℤ) ≤ 7 ∧ (7 : ℤ) ≤ 2) := by
  constructor
  · rfl
  · decide

/-- C7 (amended): the Exodus block assembly raises a fatal error iff some
element's global id minus one reaches num_elem (i.e. the id exceeds the
upper bound); a global id below 1 and out-of-range connectivity node ids
raise no error (the former is an unchecked out-of-bounds write in the
source; the error message names the field but not the file). -/
theorem exodus_assemble_error_iff (nTotal nNodes : ℤ) (faces0 : ℤ → List ℤ)
    (blocks : List (List ExodusElem)) :
    (∃ msg, exodusAssemble nTotal nNodes faces0 blocks = Except.error msg) ↔
      ∃ b ∈ blocks, ∃ e ∈ b, nTotal ≤ e.globalId - 1 := by
  induction blocks generalizing faces0 with
  | nil =>
      constructor
      · rintro ⟨msg, h⟩
        simp [exodusAssemble] at h
      · rintro ⟨b, hb, -⟩
        simp at hb
  | cons b bs ih =>
      rw [exodusAssemble]
      simp only [List.mem_cons]
      by_cases hberr : ∃ e ∈ b, nTotal ≤ e.globalId - 1
      · obtain ⟨msg, hmsg⟩ := (assembleElems_error_iff nTotal faces0 b).mpr hberr
        rw [hmsg]
        exact ⟨fun _ => ⟨b, Or.inl rfl, hberr⟩, fun _ => ⟨msg, rfl⟩⟩
      · have hok : ∀ msg, assembleElems nTotal faces0 b ≠ Except.error msg := by
          intro msg hc
          exact hberr ((assembleElems_error_iff nTotal faces0 b).mp ⟨msg, hc⟩)
        cases hres : assembleElems nTotal faces0 b with
        | error msg => exact absurd hres (hok msg)
        | ok faces2 =>
            rw [ih faces2]
            constructor
            · rintro ⟨x, hx, he⟩
              exact ⟨x, Or.inr hx, he⟩
            · rintro ⟨x, hx | hx, he⟩
              · rw [hx] at he
                exact absurd he hberr
              · exact ⟨x, hx, he⟩

theorem containsEdgeUpdate_eq (n0 n1 n2 : Node) (p : ℤ) :
    containsEdgeUpdate n0 n1 n2 p = p + edgeParityContrib n0 n1 n2 := by
  unfold containsEdgeUpdate edgeParityContrib
  by_cases hA : n1.z > n0.z ∧ n2.z > n0.z
  · rw [if_pos hA, if_pos (Or.inl hA)]
    ring
  · rw [if_neg hA]
    by_cases hB : n1.z < n0.z ∧ n2.z < n0.z
    · rw [if_pos hB, if_pos (Or.inr (Or.inl hB))]
      ring
    · rw [if_neg hB]
      by_cases hC : n1.z = n2.z
      · rw [if_pos hC, if_pos (Or.inr (Or.inr hC))]
        ring
      · rw [if_neg hC, if_neg (show ¬((n1.z > n0.z ∧ n2.z > n0.z) ∨
          (n1.z < n0.z ∧ n2.z < n0.z) ∨ n1.z = n2.z) by tauto)]
        by_cases hD : n1.z < n2.z
        · simp only [if_pos hD]
          split_ifs <;> omega
        · simp only [if_neg hD]
          split_ifs <;> omega

theorem foldl_parity (n0 : Node) (g h : ℕ → Node) (l : List ℕ) (init : ℤ) :
    l.foldl (fun nParity i1 => containsEdgeUpdate n0 (g i1) (h i1) nParity) init
      = init + (l.map (fun i1 => edgeParityContrib n0 (g i1) (h i1))).sum := by
  induction l generalizing init with
  | nil => simp
  | cons a t ih =>
      rw [List.foldl_cons, List.map_cons, List.sum_cons, ih, containsEdgeUpdate_eq]
      ring

/-- C1: Face::Contains returns true iff the signed parity accumulation is
strictly positive, where each edge contributes exactly as the claim
describes (nothing when both endpoints lie strictly on one side of the
plane z = n0.z or share its height, nothing when the interpolated
intersection's angle surrogate is negative, and otherwise +1 for rising
and -1 for falling edges). -/
theorem contains_iff_signed_parity_pos (face : Face) (n0 : Node) (nodevec : List Node) :
    face.Contains n0 nodevec = true ↔
      0 < ((List.range face.edges.length).map (fun i1 =>
        edgeParityContrib n0 (nodevec.getD (face.ix i1) Node.zero)
          (nodevec.getD (face.ix ((i1 + 1) % face.edges.length)) Node.zero))).sum := by
  unfold Face.Contains
  dsimp only
  rw [foldl_parity n0
    (fun i1 => nodevec.getD (face.ix i1) Node.zero)
    (fun i1 => nodevec.getD (face.ix ((i1 + 1) % face.edges.length)) Node.zero)
    (List.range face.edges.length) 0]
  simp



theorem foldl_min_le_init (l : List ℕ) (a : ℕ) : l.foldl min a ≤ a := by
  induction l generalizing a with
  | nil => simp
  | cons x t ih =>
      rw [List.foldl_cons]
      exact le_trans (ih (min a x)) (min_le_left a x)

theorem foldl_min_le_mem (l : List ℕ) (x : ℕ) :
    x ∈ l → ∀ a, l.foldl min a ≤ x := by
  induction l with
  | nil => intro hx; cases hx
  | cons y t ih =>
      intro hx a
      rw [List.foldl_cons]
      rcases List.mem_cons.mp hx with h | h
      · subst h
        exact le_trans (foldl_min_le_init t (min a x)) (min_le_right a x)
      · exact ih h (min a y)

theorem foldl_min_choice (l : List ℕ) : ∀ a, l.foldl min a = a ∨ l.foldl min a ∈ l := by
  induction l with
  | nil => intro a; exact Or.inl rfl
  | cons y t ih =>
      intro a
      rw [List.foldl_cons]
      rcases ih (min a y) with h | h
      · rcases le_total a y with hay | hya
        · rw [h, min_eq_left hay]
          exact Or.inl rfl
        · rw [h, min_eq_right hya]
          exact Or.inr (List.mem_cons_self y t)
      · exact Or.inr (List.mem_cons_of_mem y h)

theorem nodeTree_find_none_iff (sp : ℚ) (entries : KdTreeData) (sz : ℕ) (q : Node) :
    NodeTree.find ⟨sp, entries, sz⟩ q = none ↔
      ∀ p ∈ entries, ¬(distSq p.1 q ≤ sp ^ 2) := by
  unfold NodeTree.find kdNearestRange
  dsimp only
  by_cases hemp : (entries.filter fun p => decide (distSq p.1 q ≤ sp ^ 2)).isEmpty
  · rw [if_pos hemp]
    rw [List.isEmpty_iff] at hemp
    simp only [List.filter_eq_nil_iff, decide_eq_true_eq] at hemp
    exact iff_of_true rfl hemp
  · rw [if_neg hemp]
    rw [List.isEmpty_iff] at hemp
    constructor
    · intro h
      cases h
    · intro hall
      exfalso
      apply hemp
      simp only [List.filter_eq_nil_iff, decide_eq_true_eq]
      exact hall

theorem nodeTree_find_some_iff (sp : ℚ) (entries : KdTreeData) (sz : ℕ) (q : Node)
    (hbound : ∀ p ∈ entries, p.2 < intMax) (j : ℕ) :
    NodeTree.find ⟨sp, entries, sz⟩ q = some j ↔
      ((∃ p ∈ entries, p.2 = j ∧ distSq p.1 q ≤ sp ^ 2) ∧
        ∀ p ∈ entries, distSq p.1 q ≤ sp ^ 2 → j ≤ p.2) := by
  unfold NodeTree.find kdNearestRange
  dsimp only
  have hfold : ∀ (a : ℕ) (l : KdTreeData),
      l.foldl (fun acc p => min acc p.2) a = (l.map Prod.snd).foldl min a := by
    intro a l
    rw [List.foldl_map]
  have hmemres : ∀ p : Node × ℕ,
      p ∈ entries.filter (fun p => decide (distSq p.1 q ≤ sp ^ 2)) ↔
        p ∈ entries ∧ distSq p.1 q ≤ sp ^ 2 := by
    intro p
    rw [List.mem_filter, decide_eq_true_eq]
  by_cases hemp : (entries.filter fun p => decide (distSq p.1 q ≤ sp ^ 2)).isEmpty
  · rw [if_pos hemp]
    rw [List.isEmpty_iff] at hemp
    constructor
    · intro h
      cases h
    · rintro ⟨⟨p, hp, -, hd⟩, -⟩
      have : p ∈ entries.filter (fun p => decide (distSq p.1 q ≤ sp ^ 2)) :=
        (hmemres p).mpr ⟨hp, hd⟩
      rw [hemp] at this
      cases this
  · rw [if_neg hemp]
    rw [hfold]
    have hne : entries.filter (fun p => decide (distSq p.1 q ≤ sp ^ 2)) ≠ [] := by
      intro hc
      rw [hc] at hemp
      exact hemp rfl
    obtain ⟨p0, hp0⟩ := List.exists_mem_of_ne_nil _ hne
    have hp0' := (hmemres p0).mp hp0
    have hp0lt : p0.2 < intMax := hbound p0 hp0'.1
    set res := entries.filter (fun p => decide (distSq p.1 q ≤ sp ^ 2)) with hres
    set jf := (res.map Prod.snd).foldl min intMax with hjf
    have hjf_le : ∀ p ∈ res, jf ≤ p.2 := by
      intro p hp
      exact foldl_min_le_mem _ p.2 (List.mem_map_of_mem Prod.snd hp) intMax
    have hjf_mem : ∃ p ∈ res, p.2 = jf := by
      rcases foldl_min_choice (res.map Prod.snd) intMax with h | h
      · exfalso
        rw [← hjf] at h
        have h2 := hjf_le p0 hp0
        omega
      · rw [← hjf] at h
        obtain ⟨p, hp, hpj⟩ := List.mem_map.mp h
        exact ⟨p, hp, hpj⟩
    constructor
    · intro h
      have hj : jf = j := Option.some.inj h
      subst hj
      obtain ⟨p, hp, hpj⟩ := hjf_mem
      refine ⟨⟨p, (hmemres p).mp hp |>.1, hpj, ((hmemres p).mp hp).2⟩, ?_⟩
      intro p' hp' hd'
      exact hjf_le p' ((hmemres p').mpr ⟨hp', hd'⟩)
    · rintro ⟨⟨p, hp, hpj, hd⟩, hmin⟩
      have hpres : p ∈ res := (hmemres p).mpr ⟨hp, hd⟩
      have h1 : jf ≤ j := by
        rw [← hpj]
        exact hjf_le p hpres
      have h2 : j ≤ jf := by
        obtain ⟨p', hp', hpj'⟩ := hjf_mem
        rw [← hpj']
        exact hmin p' ((hmemres p').mp hp').1 ((hmemres p').mp hp').2
      have : jf = j := le_antisymm h1 h2
      rw [this]

/-- C4: NodeTree::find returns the smallest index among all inserted
points lying within the minimum-spacing radius of the query (provided the
inserted indices are below the int-max fold seed, as the source asserts),
returns the InvalidNode sentinel (none) when no inserted point lies within
that radius, and its result is unchanged under any permutation of the
stored entries, hence independent of insertion order. -/
theorem nodeTree_find_minimal (sp : ℚ) (entries entries2 : KdTreeData) (sz sz2 : ℕ)
    (q : Node) (hperm : entries.Perm entries2)
    (hbound : ∀ p ∈ entries, p.2 < intMax) :
    (NodeTree.find ⟨sp, entries, sz⟩ q = none ↔
      ∀ p ∈ entries, ¬(distSq p.1 q ≤ sp ^ 2)) ∧
    (∀ j, NodeTree.find ⟨sp, entries, sz⟩ q = some j ↔
      ((∃ p ∈ entries, p.2 = j ∧ distSq p.1 q ≤ sp ^ 2) ∧
        ∀ p ∈ entries, distSq p.1 q ≤ sp ^ 2 → j ≤ p.2)) ∧
    NodeTree.find ⟨sp, entries, sz⟩ q = NodeTree.find ⟨sp, entries2, sz2⟩ q := by
  have hbound2 : ∀ p ∈ entries2, p.2 < intMax := by
    intro p hp
    exact hbound p (hperm.mem_iff.mpr hp)
  refine ⟨nodeTree_find_none_iff sp entries sz q, ?_, ?_⟩
  · intro j
    exact nodeTree_find_some_iff sp entries sz q hbound j
  · cases h : NodeTree.find ⟨sp, entries, sz⟩ q with
    | none =>
        symm
        rw [nodeTree_find_none_iff]
        intro p hp
        exact (nodeTree_find_none_iff sp entries sz q).mp h p (hperm.mem_iff.mpr hp)
    | some j =>
        symm
        rw [nodeTree_find_some_iff sp entries2 sz2 q hbound2 j]
        obtain ⟨⟨p, hp, hpj, hd⟩, hmin⟩ :=
          (nodeTree_find_some_iff sp entries sz q hbound j).mp h
        refine ⟨⟨p, hperm.mem_iff.mp hp, hpj, hd⟩, ?_⟩
        intro p' hp' hd'
        exact hmin p' (hperm.mem_iff.mpr hp') hd'

/-- Witness for the C4 theorem at concrete inputs: both hypotheses hold
and the conclusion follows by applying the theorem. -/
theorem nodeTree_find_minimal_witness :
    (c4entries.Perm c4entries.reverse ∧ ∀ p ∈ c4entries, p.2 < intMax) ∧
    ((NodeTree.find ⟨1, c4entries, 2⟩ ⟨1, 0, 0⟩ = none ↔
      ∀ p ∈ c4entries, ¬(distSq p.1 ⟨1, 0, 0⟩ ≤ (1 : ℚ) ^ 2)) ∧
    (∀ j, NodeTree.find ⟨1, c4entries, 2⟩ ⟨1, 0, 0⟩ = some j ↔
      ((∃ p ∈ c4entries, p.2 = j ∧ distSq p.1 ⟨1, 0, 0⟩ ≤ (1 : ℚ) ^ 2) ∧
        ∀ p ∈ c4entries, distSq p.1 ⟨1, 0, 0⟩ ≤ (1 : ℚ) ^ 2 → j ≤ p.2)) ∧
    NodeTree.find ⟨1, c4entries, 2⟩ ⟨1, 0, 0⟩ =
      NodeTree.find ⟨1, c4entries.reverse, 0⟩ ⟨1, 0, 0⟩) :=
  ⟨⟨by decide, by decide⟩,
    nodeTree_find_minimal 1 c4entries c4entries.reverse 2 0 ⟨1, 0, 0⟩
      (by decide) (by decide)⟩



theorem distSq_comm (a b : Node) : distSq a b = distSq b a := by
  unfold distSq Node.sub Node.magSq
  ring

theorem kdFoldAux (q : Node) : ∀ (l : KdTreeData) (b : Node × ℕ),
    ∃ r, l.foldl (kdStep q) (some b) = some r ∧ (r = b ∨ r ∈ l) ∧
      distSq r.1 q ≤ distSq b.1 q ∧ ∀ p ∈ l, distSq r.1 q ≤ distSq p.1 q := by
  intro l
  induction l with
  | nil =>
      intro b
      exact ⟨b, rfl, Or.inl rfl, le_refl _, by simp⟩
  | cons p t ih =>
      intro b
      rw [List.foldl_cons]
      by_cases hlt : distSq p.1 q < distSq b.1 q
      · rw [show kdStep q (some b) p =
            (if distSq p.1 q < distSq b.1 q then some p else some b) from rfl, if_pos hlt]
        obtain ⟨r, hr, hmem, hle, hall⟩ := ih p
        refine ⟨r, hr, ?_, ?_, ?_⟩
        · rcases hmem with h | h
          · exact Or.inr (by rw [h]; exact List.mem_cons_self p t)
          · exact Or.inr (List.mem_cons_of_mem p h)
        · exact le_trans hle (le_of_lt hlt)
        · intro p' hp'
          rcases List.mem_cons.mp hp' with h | h
          · rw [h]
            exact hle
          · exact hall p' h
      · rw [show kdStep q (some b) p =
            (if distSq p.1 q < distSq b.1 q then some p else some b) from rfl, if_neg hlt]
        obtain ⟨r, hr, hmem, hle, hall⟩ := ih b
        refine ⟨r, hr, ?_, hle, ?_⟩
        · rcases hmem with h | h
          · exact Or.inl h
          · exact Or.inr (List.mem_cons_of_mem p h)
        · intro p' hp'
          rcases List.mem_cons.mp hp' with h | h
          · rw [h]
            exact le_trans hle (not_lt.mp hlt)
          · exact hall p' h

theorem kdNearest_spec (q : Node) (tree : KdTreeData) (hne : tree ≠ []) :
    ∃ r, kdNearest tree q = some r ∧ r ∈ tree ∧
      ∀ p ∈ tree, distSq r.1 q ≤ distSq p.1 q := by
  match tree, hne with
  | p :: t, _ =>
      unfold kdNearest
      rw [List.foldl_cons, show kdStep q none p = some p from rfl]
      obtain ⟨r, hr, hmem, hle, hall⟩ := kdFoldAux q t p
      refine ⟨r, hr, ?_, ?_⟩
      · rcases hmem with h | h
        · rw [h]
          exact List.mem_cons_self p t
        · exact List.mem_cons_of_mem p h
      · intro p' hp'
        rcases List.mem_cons.mp hp' with h | h
        · rw [h]
          exact hle
        · exact hall p' h

theorem map_getD_range (l : List Node) :
    (List.range l.length).map (fun i => l.getD i Node.zero) = l := by
  apply List.ext_getElem
  · simp
  · intro i h1 h2
    simp only [List.getElem_map, List.getElem_range]
    rw [List.getD_eq_getElem l Node.zero h2]

theorem getD_mem_of_lt (l : List ℕ) (n d : ℕ) (h : n < l.length) : l.getD n d ∈ l := by
  rw [List.getD_eq_getElem l d h]
  exact List.getElem_mem h

theorem dedupScan_spec (orig : List Node) :
    ∀ (rest : List Node) (k : ℕ) (kdt : KdTreeData) (newIx uniques : List ℕ),
      orig.drop k = rest →
      kdt ≠ [] →
      kdt.map Prod.fst = uniques.map (fun i => orig.getD i Node.zero) →
      List.Pairwise (fun a b => ReferenceTolerance ^ 2 ≤ distSq a b) (kdt.map Prod.fst) →
      (∀ x ∈ newIx, x < uniques.length) →
      (∀ p ∈ kdt, p.2 < uniques.length) →
      uniques.length ≤ k →
      (uniques.length = k → uniques = List.range k) →
      (dedupScan kdt newIx uniques rest k).1.length = newIx.length + rest.length ∧
      (∀ x ∈ (dedupScan kdt newIx uniques rest k).1,
        x < (dedupScan kdt newIx uniques rest k).2.length) ∧
      List.Pairwise (fun a b => ReferenceTolerance ^ 2 ≤ distSq a b)
        ((dedupScan kdt newIx uniques rest k).2.map (fun i => orig.getD i Node.zero)) ∧
      (dedupScan kdt newIx uniques rest k).2.length ≤ k + rest.length ∧
      ((dedupScan kdt newIx uniques rest k).2.length = k + rest.length →
        (dedupScan kdt newIx uniques rest k).2 = List.range (k + rest.length)) := by
  intro rest
  induction rest with
  | nil =>
      intro k kdt newIx uniques hdrop hkne hcorr hpw hnewIx hpay hlen hleneq
      rw [show dedupScan kdt newIx uniques [] k = (newIx, uniques) from rfl]
      refine ⟨by simp, hnewIx, ?_, by simpa using hlen, ?_⟩
      · rw [← hcorr]
        exact hpw
      · intro h
        simp only [List.length_nil, Nat.add_zero] at h ⊢
        exact hleneq h
  | cons node rest ih =>
      intro k kdt newIx uniques hdrop hkne hcorr hpw hnewIx hpay hlen hleneq
      have hklen : k < orig.length := by
        by_contra hc
        push_neg at hc
        rw [List.drop_eq_nil_of_le hc] at hdrop
        exact List.noConfusion hdrop
      have hcons := List.drop_eq_getElem_cons hklen
      rw [hdrop] at hcons
      have hnode : orig[k] = node := (List.cons.inj hcons.symm).1
      have hdrop' : orig.drop (k + 1) = rest := (List.cons.inj hcons.symm).2
      have hnodeD : orig.getD k Node.zero = node := by
        rw [List.getD_eq_getElem orig Node.zero hklen]
        exact hnode
      obtain ⟨r, hr, hrmem, hrmin⟩ := kdNearest_spec node kdt hkne
      obtain ⟨rn, rp⟩ := r
      have hstep : dedupScan kdt newIx uniques (node :: rest) k =
          if distSq node rn < ReferenceTolerance ^ 2 then
            dedupScan kdt (newIx ++ [rp]) uniques rest (k + 1)
          else
            dedupScan (kdt ++ [(node, uniques.length)])
              (newIx ++ [uniques.length]) (uniques ++ [k]) rest (k + 1) := by
        rw [show dedupScan kdt newIx uniques (node :: rest) k =
          (match kdNearest kdt node with
           | none => (newIx, uniques)
           | some (nodeNearest, ixNodeNearestNewIx) =>
             if distSq node nodeNearest < ReferenceTolerance ^ 2 then
               dedupScan kdt (newIx ++ [ixNodeNearestNewIx]) uniques rest (k + 1)
             else
               dedupScan (kdt ++ [(node, uniques.length)])
                 (newIx ++ [uniques.length]) (uniques ++ [k]) rest (k + 1)) from rfl]
        rw [hr]
      rw [hstep]
      by_cases hmerge : distSq node rn < ReferenceTolerance ^ 2
      · rw [if_pos hmerge]
        have hrp : rp < uniques.length := hpay (rn, rp) hrmem
        have hres := ih (k + 1) kdt (newIx ++ [rp]) uniques hdrop' hkne hcorr hpw
          (by
            intro x hx
            rcases List.mem_append.mp hx with h | h
            · exact hnewIx x h
            · rw [List.mem_singleton.mp h]
              exact hrp)
          hpay (by omega) (by omega)
        obtain ⟨hA, hB, hC, hD, hE⟩ := hres
        refine ⟨?_, hB, hC, ?_, ?_⟩
        · rw [hA]
          simp only [List.length_append, List.length_cons, List.length_nil]
          omega
        · simp only [List.length_cons]
          omega
        · intro h
          rw [show k + (node :: rest).length = k + 1 + rest.length by
            simp only [List.length_cons]
            omega]
          apply hE
          simp only [List.length_cons] at h
          omega
      · rw [if_neg hmerge]
        have hfar : ReferenceTolerance ^ 2 ≤ distSq node rn := not_lt.mp hmerge
        have hres := ih (k + 1) (kdt ++ [(node, uniques.length)])
          (newIx ++ [uniques.length]) (uniques ++ [k]) hdrop'
          (by simp)
          (by
            rw [List.map_append, hcorr, List.map_append]
            simp only [List.map_cons, List.map_nil]
            rw [hnodeD])
          (by
            rw [List.map_append, List.pairwise_append]
            refine ⟨hpw, by simp, ?_⟩
            intro a ha b hb
            simp only [List.map_cons, List.map_nil, List.mem_singleton] at hb
            rw [hb]
            obtain ⟨p, hp, hpa⟩ := List.mem_map.mp ha
            have h1 : distSq rn node ≤ distSq p.1 node := hrmin p hp
            have h2 : ReferenceTolerance ^ 2 ≤ distSq rn node := by
              rw [← distSq_comm node rn]
              exact hfar
            rw [← hpa]
            exact le_trans h2 h1)
          (by
            intro x hx
            simp only [List.length_append, List.length_cons, List.length_nil]
            rcases List.mem_append.mp hx with h | h
            · have := hnewIx x h
              omega
            · rw [List.mem_singleton.mp h]
              omega)
          (by
            intro p hp
            simp only [List.length_append, List.length_cons, List.length_nil]
            rcases List.mem_append.mp hp with h | h
            · have := hpay p h
              omega
            · rw [List.mem_singleton.mp h]
              simp)
          (by
            simp only [List.length_append, List.length_cons, List.length_nil]
            omega)
          (by
            intro h
            simp only [List.length_append, List.length_cons, List.length_nil] at h
            have huk : uniques.length = k := by omega
            rw [hleneq huk, List.range_succ])
        obtain ⟨hA, hB, hC, hD, hE⟩ := hres
        refine ⟨?_, hB, hC, ?_, ?_⟩
        · rw [hA]
          simp only [List.length_append, List.length_cons, List.length_nil]
          omega
        · simp only [List.length_cons]
          omega
        · intro h
          rw [show k + (node :: rest).length = k + 1 + rest.length by
            simp only [List.length_cons]
            omega]
          apply hE
          simp only [List.length_cons] at h
          omega



/-- C3: for a mesh with at least one node whose faces reference only
valid node indices, RemoveCoincidentNodes succeeds and afterwards every
pair of distinct remaining nodes is at squared distance at least the
squared reference tolerance (that is, Euclidean distance at least the
reference tolerance 1e-8), and every node index appearing in any face
edge is a valid index into the resulting node list. -/
theorem removeCoincidentNodes_spacing_and_valid (m : Mesh)
    (hne : m.nodes ≠ [])
    (hvalid : ∀ f ∈ m.faces, ∀ e ∈ f.edges,
      e.n0 < m.nodes.length ∧ e.n1 < m.nodes.length) :
    ∃ m', m.RemoveCoincidentNodes = some m' ∧
      List.Pairwise (fun a b => ReferenceTolerance ^ 2 ≤ distSq a b) m'.nodes ∧
      ∀ f ∈ m'.faces, ∀ e ∈ f.edges,
        e.n0 < m'.nodes.length ∧ e.n1 < m'.nodes.length := by
  obtain ⟨nodesm, facesm, em, rv⟩ := m
  simp only at hne hvalid ⊢
  obtain ⟨n0, rest, hm⟩ : ∃ n0 rest, nodesm = n0 :: rest := by
    cases hmm : nodesm with
    | nil => exact absurd hmm hne
    | cons a t => exact ⟨a, t, rfl⟩
  subst hm
  have hspec := dedupScan_spec (n0 :: rest) rest 1 [(n0, 0)] [0] [0]
    rfl
    (by simp)
    (by simp)
    (by simp)
    (by simp)
    (by simp)
    le_rfl
    (fun _ => rfl)
  obtain ⟨hA, hB, hC, hD, hE⟩ := hspec
  rw [show (Mesh.mk (n0 :: rest) facesm em rv).RemoveCoincidentNodes =
      (if (dedupScan [(n0, 0)] [0] [0] rest 1).2.length = (n0 :: rest).length then
        some (Mesh.mk (n0 :: rest) facesm em rv)
      else
        some (Mesh.mk
          ((dedupScan [(n0, 0)] [0] [0] rest 1).2.map
            (fun i => (n0 :: rest).getD i Node.zero))
          (facesm.map (fun f =>
            ⟨f.edges.map (fun e =>
              ⟨(dedupScan [(n0, 0)] [0] [0] rest 1).1.getD e.n0 0,
               (dedupScan [(n0, 0)] [0] [0] rest 1).1.getD e.n1 0, e.type⟩)⟩))
          em rv)) from rfl]
  by_cases hif : (dedupScan [(n0, 0)] [0] [0] rest 1).2.length = (n0 :: rest).length
  · rw [if_pos hif]
    refine ⟨Mesh.mk (n0 :: rest) facesm em rv, rfl, ?_, ?_⟩
    · have hlen : (dedupScan [(n0, 0)] [0] [0] rest 1).2.length = 1 + rest.length := by
        rw [hif]
        simp only [List.length_cons]
        omega
      have hrange := hE hlen
      have hmap := hC
      rw [hrange] at hmap
      rw [show (1 : ℕ) + rest.length = (n0 :: rest).length by
        simp only [List.length_cons]
        omega] at hmap
      rw [map_getD_range (n0 :: rest)] at hmap
      exact hmap
    · exact hvalid
  · rw [if_neg hif]
    refine ⟨_, rfl, ?_, ?_⟩
    · exact hC
    · intro f hf e he
      simp only [List.mem_map] at hf
      obtain ⟨f0, hf0, hf0eq⟩ := hf
      rw [← hf0eq] at he
      simp only [List.mem_map] at he
      obtain ⟨e0, he0, he0eq⟩ := he
      have hv := hvalid f0 hf0 e0 he0
      have hlen1 : (dedupScan [(n0, 0)] [0] [0] rest 1).1.length = (n0 :: rest).length := by
        rw [hA]
        simp only [List.length_cons, List.length_nil]
        omega
      have hb0 : (dedupScan [(n0, 0)] [0] [0] rest 1).1.getD e0.n0 0 ∈
          (dedupScan [(n0, 0)] [0] [0] rest 1).1 :=
        getD_mem_of_lt _ _ _ (by rw [hlen1]; exact hv.1)
      have hb1 : (dedupScan [(n0, 0)] [0] [0] rest 1).1.getD e0.n1 0 ∈
          (dedupScan [(n0, 0)] [0] [0] rest 1).1 :=
        getD_mem_of_lt _ _ _ (by rw [hlen1]; exact hv.2)
      rw [← he0eq]
      simp only [List.length_map]
      exact ⟨hB _ hb0, hB _ hb1⟩

/-- Witness for the C3 theorem at a concrete mesh: both hypotheses hold
and the conclusion follows by applying the theorem. -/
theorem removeCoincidentNodes_spacing_witness :
    (c3mesh.nodes ≠ [] ∧
      ∀ f ∈ c3mesh.faces, ∀ e ∈ f.edges,
        e.n0 < c3mesh.nodes.length ∧ e.n1 < c3mesh.nodes.length) ∧
    (∃ m', c3mesh.RemoveCoincidentNodes = some m' ∧
      List.Pairwise (fun a b => ReferenceTolerance ^ 2 ≤ distSq a b) m'.nodes ∧
      ∀ f ∈ m'.faces, ∀ e ∈ f.edges,
        e.n0 < m'.nodes.length ∧ e.n1 < m'.nodes.length) :=
  ⟨⟨by decide, by decide⟩,
    removeCoincidentNodes_spacing_and_valid c3mesh (by decide) (by decide)⟩



theorem edgeDegAt_iff_get (edges : List Edge) (j : ℕ) (h : j < edges.length) :
    edgeDegAt edges j ↔ (edges.get ⟨j, h⟩).n0 = (edges.get ⟨j, h⟩).n1 := by
  unfold edgeDegAt
  rw [List.getD_eq_getElem edges default h, List.get_eq_getElem]

theorem skipDeg_spec (edges : List Edge) :
    ∀ (fuel j : ℕ), j ≤ edges.length → edges.length ≤ j + fuel →
      j ≤ skipDeg edges fuel j ∧ skipDeg edges fuel j ≤ edges.length ∧
      (∀ m, j ≤ m → m < skipDeg edges fuel j → edgeDegAt edges m) ∧
      (skipDeg edges fuel j < edges.length → ¬edgeDegAt edges (skipDeg edges fuel j)) := by
  intro fuel
  induction fuel with
  | zero =>
      intro j hj hlen
      rw [show skipDeg edges 0 j = j from rfl]
      exact ⟨le_rfl, hj, fun m h1 h2 => absurd h2 (by omega),
        fun h => absurd h (by omega)⟩
  | succ fuel ih =>
      intro j hj hlen
      simp only [skipDeg]
      by_cases hjl : j < edges.length
      · rw [dif_pos hjl]
        by_cases hdeg : (edges.get ⟨j, hjl⟩).n0 = (edges.get ⟨j, hjl⟩).n1
        · rw [if_pos hdeg]
          obtain ⟨h1, h2, h3, h4⟩ := ih (j + 1) (by omega) (by omega)
          refine ⟨by omega, h2, ?_, h4⟩
          intro m hm1 hm2
          by_cases hmj : m = j
          · subst hmj
            exact (edgeDegAt_iff_get edges m hjl).mpr hdeg
          · exact h3 m (by omega) hm2
        · rw [if_neg hdeg]
          refine ⟨le_rfl, by omega, fun m h1 h2 => absurd h2 (by omega), ?_⟩
          intro _
          rw [edgeDegAt_iff_get edges j hjl]
          exact hdeg
      · rw [dif_neg hjl]
        exact ⟨le_rfl, by omega, fun m h1 h2 => absurd h2 (by omega),
          fun h => absurd h (by omega)⟩

theorem findNextNonDeg_some (edges : List Edge) (j1 : ℕ)
    (hj : j1 < edges.length) (hnd : ¬edgeDegAt edges j1) :
    ∀ (fuel cur : ℕ), cur < edges.length →
      (if cur ≤ j1 then j1 - cur else j1 + edges.length - cur) < fuel →
      ∃ r, findNextNonDeg edges ((j1 + 1) % edges.length) fuel cur = some r := by
  intro fuel
  induction fuel with
  | zero =>
      intro cur hcur hd
      exact absurd hd (Nat.not_lt_zero _)
  | succ fuel ih =>
      intro cur hcur hd
      simp only [findNextNonDeg]
      by_cases hdeg : (edges.getD cur default).n0 = (edges.getD cur default).n1
      · rw [if_pos hdeg]
        have hcj : cur ≠ j1 := by
          intro hc
          subst hc
          exact hnd hdeg
        set nxt := if cur + 1 = edges.length then 0 else cur + 1 with hnxt
        have hstart : ((j1 + 1) % edges.length = j1 + 1 ∧ j1 + 1 < edges.length) ∨
            ((j1 + 1) % edges.length = 0 ∧ j1 + 1 = edges.length) := by
          rcases Nat.lt_or_ge (j1 + 1) edges.length with h | h
          · exact Or.inl ⟨Nat.mod_eq_of_lt h, h⟩
          · have heq : j1 + 1 = edges.length := by omega
            exact Or.inr ⟨by rw [heq, Nat.mod_self], heq⟩
        have hnxtval : (cur + 1 = edges.length ∧ nxt = 0) ∨
            (cur + 1 < edges.length ∧ nxt = cur + 1) := by
          by_cases hc : cur + 1 = edges.length
          · exact Or.inl ⟨hc, by rw [hnxt, if_pos hc]⟩
          · exact Or.inr ⟨by omega, by rw [hnxt, if_neg hc]⟩
        have hne_start : ¬(nxt = (j1 + 1) % edges.length) := by
          rcases hstart with ⟨hs, hlt⟩ | ⟨hs, heq⟩ <;>
            rcases hnxtval with ⟨hc, hn⟩ | ⟨hc, hn⟩ <;> omega
        rw [if_neg hne_start]
        apply ih nxt
        · rcases hnxtval with ⟨hc, hn⟩ | ⟨hc, hn⟩ <;> omega
        · rcases hnxtval with ⟨hc, hn⟩ | ⟨hc, hn⟩ <;>
            · rw [hn]
              split_ifs at hd ⊢ <;> omega
      · rw [if_neg hdeg]
        exact ⟨cur, rfl⟩

theorem findNextNonDeg_of_nonDeg (edges : List Edge) (j1 : ℕ)
    (hj : j1 < edges.length) (hnd : ¬edgeDegAt edges j1) :
    ∃ r, findNextNonDeg edges ((j1 + 1) % edges.length) (edges.length + 1)
        ((j1 + 1) % edges.length) = some r := by
  apply findNextNonDeg_some edges j1 hj hnd
  · exact Nat.mod_lt _ (by omega)
  · split_ifs with h
    · omega
    · push_neg at h
      omega

theorem validateFaceFrom_ok_iff (nodes : List Node) (edges : List Edge) :
    ∀ (fuel j : ℕ), edges.length ≤ j + fuel →
      (validateFaceFrom nodes edges fuel j = Except.ok () ↔
        ∀ k, j ≤ k → k < edges.length → ¬edgeDegAt edges k →
          ¬validatePairBad nodes edges k) := by
  intro fuel
  induction fuel with
  | zero =>
      intro j hlen
      rw [show validateFaceFrom nodes edges 0 j = Except.ok () from rfl]
      exact iff_of_true rfl (fun k h1 h2 _ => absurd h2 (by omega))
  | succ fuel ih =>
      intro j hlen
      simp only [validateFaceFrom]
      by_cases hjl : j < edges.length
      · rw [if_pos hjl]
        obtain ⟨hs1, hs2, hs3, hs4⟩ :=
          skipDeg_spec edges edges.length j (by omega) (by omega)
        by_cases hj1len : skipDeg edges edges.length j = edges.length
        · rw [if_pos hj1len]
          refine iff_of_true rfl ?_
          intro k h1 h2 h3
          exact absurd (hs3 k h1 (by omega)) h3
        · rw [if_neg hj1len]
          have hj1lt : skipDeg edges edges.length j < edges.length := by omega
          have hnd1 : ¬edgeDegAt edges (skipDeg edges edges.length j) := hs4 hj1lt
          obtain ⟨r, hr⟩ := findNextNonDeg_of_nonDeg edges
            (skipDeg edges edges.length j) hj1lt hnd1
          rw [hr]
          set j1 := skipDeg edges edges.length j with hj1
          by_cases hcyc : (edges.getD j1 default).n1 ≠
              (edges.getD ((j1 + 1) % edges.length) default).n0
          · rw [if_pos hcyc]
            refine iff_of_false (by simp) ?_
            intro hall
            exact hall j1 hs1 hj1lt hnd1 (Or.inl hcyc)
          · rw [if_neg hcyc]
            by_cases hdot : 0 < DotProduct
                (nodes.getD (edges.getD j1 default).n1 Node.zero)
                (CrossProduct
                  ((nodes.getD (edges.getD j1 default).n0 Node.zero).sub
                    (nodes.getD (edges.getD j1 default).n1 Node.zero))
                  ((nodes.getD (edges.getD ((j1 + 1) % edges.length) default).n1
                      Node.zero).sub
                    (nodes.getD (edges.getD j1 default).n1 Node.zero)))
            · rw [if_pos hdot]
              refine iff_of_false (by simp) ?_
              intro hall
              exact hall j1 hs1 hj1lt hnd1 (Or.inr hdot)
            · rw [if_neg hdot]
              rw [ih (j1 + 1) (by omega)]
              constructor
              · intro hall k h1 h2 h3
                by_cases hkj1 : k < j1
                · exact absurd (hs3 k h1 hkj1) h3
                · by_cases hkeq : k = j1
                  · subst hkeq
                    intro hbad
                    rcases hbad with hb | hb
                    · exact hcyc hb
                    · exact hdot hb
                  · exact hall k (by omega) h2 h3
              · intro hall k h1 h2 h3
                exact hall k (by omega) h2 h3
      · rw [if_neg hjl]
        exact iff_of_true rfl (fun k h1 h2 _ => absurd h2 (by omega))

theorem checkNodeMagnitudes_ok_iff (nodes : List Node) :
    checkNodeMagnitudes nodes = Except.ok () ↔ ∀ n ∈ nodes, ¬nodeMagBad n = true := by
  induction nodes with
  | nil => simp [checkNodeMagnitudes]
  | cons n rest ih =>
      rw [checkNodeMagnitudes]
      by_cases hbad : nodeMagBad n
      · rw [if_pos hbad]
        refine iff_of_false (by simp) ?_
        intro hall
        exact hall n (by simp) hbad
      · rw [if_neg hbad]
        rw [ih]
        constructor
        · intro hall n2 hn2
          rcases List.mem_cons.mp hn2 with h | h
          · rw [h]
            exact hbad
          · exact hall n2 h
        · intro hall n2 hn2
          exact hall n2 (List.mem_cons_of_mem n hn2)

theorem checkFaceOrientation_ok_iff (nodes : List Node) (faces : List Face) :
    checkFaceOrientation nodes faces = Except.ok () ↔
      ∀ f ∈ faces, f.validateEdges nodes = Except.ok () := by
  induction faces with
  | nil => simp [checkFaceOrientation]
  | cons f rest ih =>
      rw [checkFaceOrientation]
      cases hv : f.validateEdges nodes with
      | error msg =>
          refine iff_of_false (by simp) ?_
          intro hall
          have := hall f (by simp)
          rw [hv] at this
          exact Except.noConfusion this
      | ok u =>
          cases u
          rw [ih]
          constructor
          · intro hall f2 hf2
            rcases List.mem_cons.mp hf2 with h | h
            · rw [h]
              exact hv
            · exact hall f2 h
          · intro hall f2 hf2
            exact hall f2 (List.mem_cons_of_mem f hf2)

theorem nodeMagBad_of_magSq_one (n : Node) (h : n.magSq = 1) : nodeMagBad n = false := by
  unfold nodeMagBad
  rw [h, Bool.or_eq_false_iff]
  constructor
  · rw [decide_eq_false_iff_not]
    norm_num [ReferenceTolerance]
  · rw [decide_eq_false_iff_not]
    norm_num [ReferenceTolerance]

theorem except_error_exists (x : Except String Unit) :
    (∃ msg, x = Except.error msg) ↔ ¬(x = Except.ok ()) := by
  cases x with
  | error msg =>
      exact iff_of_true ⟨msg, rfl⟩ (by simp)
  | ok u =>
      cases u
      refine iff_of_false ?_ (by simp)
      rintro ⟨m, h⟩
      exact Except.noConfusion h

/-- C2 (amended): Mesh::Validate throws iff (a) some node's squared
magnitude leaves the tolerance band around 1, or (b) some face has a
non-degenerate edge j whose pair test against the edge at (j+1) mod
nEdges — the immediately following edge, degenerate or not, which is
what the source compares against (the computed next-non-degenerate index
goes unused there) — fails by cyclicity or by a strictly positive
orientation sign. -/
theorem validate_error_iff (m : Mesh) :
    (∃ msg, m.Validate = Except.error msg) ↔
      ((∃ n ∈ m.nodes, nodeMagBad n = true) ∨
       (∃ f ∈ m.faces, ∃ j, j < f.edges.length ∧ ¬edgeDegAt f.edges j ∧
         validatePairBad m.nodes f.edges j)) := by
  have hsplit : (m.Validate = Except.ok ()) ↔
      (checkNodeMagnitudes m.nodes = Except.ok () ∧
       checkFaceOrientation m.nodes m.faces = Except.ok ()) := by
    unfold Mesh.Validate
    cases hn : checkNodeMagnitudes m.nodes with
    | error msg => simp [hn]
    | ok u =>
        cases u
        simp [hn]
  have hface : ∀ f : Face, (f.validateEdges m.nodes = Except.ok () ↔
      ∀ j, 0 ≤ j → j < f.edges.length → ¬edgeDegAt f.edges j →
        ¬validatePairBad m.nodes f.edges j) := by
    intro f
    unfold Face.validateEdges
    exact validateFaceFrom_ok_iff m.nodes f.edges f.edges.length 0 (by omega)
  rw [except_error_exists, hsplit]
  rw [checkNodeMagnitudes_ok_iff, checkFaceOrientation_ok_iff]
  constructor
  · intro hne
    by_cases hnodes : ∀ n ∈ m.nodes, ¬nodeMagBad n = true
    · right
      by_contra hc
      push_neg at hc
      apply hne
      refine ⟨hnodes, ?_⟩
      intro f hf
      rw [hface f]
      intro j _ hj hnd hbad
      exact hc f hf j hj hnd hbad
    · left
      push_neg at hnodes
      obtain ⟨n, hn, hb⟩ := hnodes
      exact ⟨n, hn, by simpa using hb⟩
  · rintro (⟨n, hn, hb⟩ | ⟨f, hf, j, hj, hnd, hbad⟩) ⟨hnodes, hfaces⟩
    · exact (hnodes n hn) hb
    · have hfv := (hface f).mp (hfaces f hf)
      exact (hfv j (by omega) hj hnd) hbad

/-- C2 counterexample: on the concrete mesh c2mesh — exactly-unit nodes
and the edge cycle (0→1), (2→2), (1→0) — the source Validate throws (the
cyclicity test compares destination 1 of edge 0 against origin 2 of the
DEGENERATE edge at position 1), while the claim's stated condition, which
pairs each non-degenerate edge with the next non-degenerate edge, does
not hold: the claim as stated is false. -/
theorem validate_counterexample :
    (∃ msg, c2mesh.Validate = Except.error msg) ∧ ¬validateSpecThrows c2mesh := by
  have h1 : nodeMagBad ⟨1, 0, 0⟩ = false :=
    nodeMagBad_of_magSq_one _ (by norm_num [Node.magSq])
  have h2 : nodeMagBad ⟨0, 1, 0⟩ = false :=
    nodeMagBad_of_magSq_one _ (by norm_num [Node.magSq])
  have h3 : nodeMagBad ⟨0, 0, 1⟩ = false :=
    nodeMagBad_of_magSq_one _ (by norm_num [Node.magSq])
  constructor
  · refine ⟨"Mesh validation failed: Edge cyclicity error", ?_⟩
    have hnodes : checkNodeMagnitudes c2mesh.nodes = Except.ok () := by
      show checkNodeMagnitudes [⟨1, 0, 0⟩, ⟨0, 1, 0⟩, ⟨0, 0, 1⟩] = Except.ok ()
      rw [checkNodeMagnitudes, h1, if_neg (by simp),
        checkNodeMagnitudes, h2, if_neg (by simp),
        checkNodeMagnitudes, h3, if_neg (by simp)]
      rfl
    have hfaces : checkFaceOrientation c2mesh.nodes c2mesh.faces =
        Except.error "Mesh validation failed: Edge cyclicity error" := rfl
    unfold Mesh.Validate
    rw [hnodes]
    exact hfaces
  · rintro (⟨n, hn, hb⟩ | ⟨f, hf, j, hj, hnd, k, hk, hbad⟩)
    · rcases List.mem_cons.mp hn with h | hn2
      · rw [h] at hb
        rw [h1] at hb
        exact Bool.noConfusion hb
      · rcases List.mem_cons.mp hn2 with h | hn3
        · rw [h] at hb
          rw [h2] at hb
          exact Bool.noConfusion hb
        · rcases List.mem_cons.mp hn3 with h | hn4
          · rw [h] at hb
            rw [h3] at hb
            exact Bool.noConfusion hb
          · exact absurd hn4 (List.not_mem_nil n)
    · simp only [c2mesh, List.mem_singleton] at hf
      subst hf
      have hj3 : j < 3 := hj
      interval_cases j
      · have hk2 : (some 2 : Option ℕ) = some k := hk
        have hk3 : k = 2 := (Option.some.inj hk2).symm
        subst hk3
        rcases hbad with hcyc | hdot
        · exact hcyc rfl
        · have hdot2 : (0 : ℚ) < DotProduct ⟨0, 1, 0⟩
              (CrossProduct (Node.sub ⟨1, 0, 0⟩ ⟨0, 1, 0⟩)
                (Node.sub ⟨1, 0, 0⟩ ⟨0, 1, 0⟩)) := hdot
          norm_num [DotProduct, CrossProduct, Node.sub] at hdot2
      · exact hnd rfl
      · have hk2 : (some 0 : Option ℕ) = some k := hk
        have hk3 : k = 0 := (Option.some.inj hk2).symm
        subst hk3
        rcases hbad with hcyc | hdot
        · exact hcyc rfl
        · have hdot2 : (0 : ℚ) < DotProduct ⟨1, 0, 0⟩
              (CrossProduct (Node.sub ⟨0, 1, 0⟩ ⟨1, 0, 0⟩)
                (Node.sub ⟨0, 1, 0⟩ ⟨1, 0, 0⟩)) := hdot
          norm_num [DotProduct, CrossProduct, Node.sub] at hdot2

end MeshRender

